import Mathlib

/-!
Verification development for the Gantt chart application
(`src/gantt_chart_app.py`).  The Python program keeps an in-memory list of
task dictionaries, persists it to `gantt_tasks.json` after mutations,
maintains a linear undo/redo history of JSON snapshots, filters/sorts the
list, and renders a Monday-keyed week-bucket timeline.

Dates are embedded as rata-die day numbers (day 1 = 0001-01-01 in the
proleptic Gregorian calendar, which is a Monday).  `datetime.date` values
compare exactly like their day numbers, `date.weekday()` is
`(rd + 6) % 7` (Monday = 0), and `timedelta` arithmetic is plain addition,
so this embedding is faithful for every comparison, subtraction and
7-day step the program performs.
-/

namespace Gantt

/-- Gregorian leap-year test (as used by `datetime`). -/
def isLeap (y : Nat) : Bool :=
  y % 4 == 0 && (y % 100 != 0 || y % 400 == 0)

/-- Length of month `m` (1..12) in year `y`. -/
def daysInMonth (y m : Nat) : Nat :=
  if m = 2 then (if isLeap y then 29 else 28)
  else if m = 4 ∨ m = 6 ∨ m = 9 ∨ m = 11 then 30
  else 31

/-- Sum of the lengths of months `1..m` of year `y`. -/
def monthSum (y : Nat) : Nat → Nat
  | 0 => 0
  | m + 1 => monthSum y m + daysInMonth y (m + 1)

/-- Days in year `y` strictly before month `m`. -/
def daysBeforeMonth (y m : Nat) : Nat := monthSum y (m - 1)

/-- Days strictly before January 1 of year `y` (proleptic Gregorian). -/
def daysBeforeYear (y : Nat) : Nat :=
  let p := y - 1
  365 * p + p / 4 - p / 100 + p / 400

/-- Rata-die day number of the calendar date `y-m-d`;
`rataDie 1 1 1 = 1`, a Monday. -/
def rataDie (y m d : Nat) : Nat :=
  daysBeforeYear y + daysBeforeMonth y m + d

/-- `date.weekday()` of the day number `r` (Monday = 0, for `1 ≤ r`). -/
def weekdayOf (r : Nat) : Nat := (r + 6) % 7

/-- `r - timedelta(days=r.weekday())`: the Monday on or before day `r`. -/
def mondayOf (r : Nat) : Nat := r - weekdayOf r

/-- Numeric value of a decimal digit character. -/
def digitVal (c : Char) : Nat := c.toNat - 48

/-- Embedding of `datetime.strptime(s, "%Y-%m-%d").date()` (standard-library
call): accept exactly the ten-character zero-padded form `YYYY-MM-DD`
denoting a valid proleptic-Gregorian date with year ≥ 1 (the `datetime`
range starts at year 1), and return its rata-die day number; reject
everything else.  `date.isoformat()` is the inverse on this domain: it
re-prints the same ten-character string. -/
def parseDate (s : String) : Option Nat :=
  match s.toList with
  | [y1, y2, y3, y4, '-', m1, m2, '-', d1, d2] =>
    if y1.isDigit ∧ y2.isDigit ∧ y3.isDigit ∧ y4.isDigit ∧
       m1.isDigit ∧ m2.isDigit ∧ d1.isDigit ∧ d2.isDigit then
      let y := ((digitVal y1 * 10 + digitVal y2) * 10 + digitVal y3) * 10 + digitVal y4
      let m := digitVal m1 * 10 + digitVal m2
      let d := digitVal d1 * 10 + digitVal d2
      if 1 ≤ y ∧ 1 ≤ m ∧ m ≤ 12 ∧ 1 ≤ d ∧ d ≤ daysInMonth y m then
        some (rataDie y m d)
      else none
    else none
  | _ => none

/-- One task record, exactly the dictionary built at lines 630-639 and by the
CSV importer: dates are stored as strings and re-parsed at each use. -/
structure Task where
  name : String
  epic_number : String
  start_date : String
  end_date : String
  color : String
  priority : String
  status : String
  is_milestone : Bool
deriving DecidableEq, Repr

/-- `start_date <= end_date` for a stored task, in the only sense the program
can check it: both date strings parse and the parsed values are ordered. -/
def datesOk (t : Task) : Bool :=
  match parseDate t.start_date, parseDate t.end_date with
  | some a, some b => decide (a ≤ b)
  | _, _ => false

/-! ### Application state

`GanttChartApp` holds the task list, the index being edited
(`edit_index`, `-1` when adding), the history of snapshots with its
cursor, and — through `save_tasks` — the contents of the persisted
default file `gantt_tasks.json`.  The history in the program stores
`json.dumps(self.tasks)` strings; JSON round-trips the task dictionaries
exactly, so a snapshot is embedded as the task list itself (the string is
immutable in Python, the list value is immutable here: value semantics in
both cases). -/

structure AppState where
  tasks : List Task
  edit_index : Int
  history : List (List Task)
  history_index : Int
  savedFile : List Task
deriving DecidableEq, Repr

/-- `save_tasks` (lines 970-976): overwrite `gantt_tasks.json` with the
whole current task list. -/
def save_tasks (s : AppState) : AppState := { s with savedFile := s.tasks }

/-- `_save_history` (lines 931-937): truncate entries after the cursor,
append a snapshot of the current task list, move the cursor to the new
last entry, and auto-save to the default file. -/
def saveHistory (s : AppState) : AppState :=
  let h := s.history.take (s.history_index + 1).toNat ++ [s.tasks]
  { s with history := h, history_index := (h.length : Int) - 1, savedFile := s.tasks }

/-- `_load_from_history` (lines 939-947): replace the task list with the
snapshot at the cursor and auto-save it; the `except` branch (snapshot
lookup failing) leaves the state unchanged. -/
def loadFromHistory (s : AppState) : AppState :=
  match s.history[s.history_index.toNat]? with
  | some snap => { s with tasks := snap, savedFile := snap }
  | none => s

/-- `undo_action` (lines 949-955): move the cursor back and restore, or
report "nothing to undo". -/
def undo_action (s : AppState) : AppState :=
  if 0 < s.history_index then
    loadFromHistory { s with history_index := s.history_index - 1 }
  else s

/-- `redo_action` (lines 957-963): move the cursor forward and restore, or
report "nothing to redo". -/
def redo_action (s : AppState) : AppState :=
  if s.history_index < (s.history.length : Int) - 1 then
    loadFromHistory { s with history_index := s.history_index + 1 }
  else s

/-! ### Add / update / delete -/

/-- The values read from the input widgets by `add_or_update_task`
(already `.strip()`-ped, as in the source). -/
structure TaskInput where
  name : String
  epic_number : String
  start_date_str : String
  end_date_str : String
  color : String
  priority : String
  status : String
  is_milestone : Bool
deriving DecidableEq, Repr

/-- The task dictionary built at lines 630-639.  `start_date.isoformat()`
and `end_date.isoformat()` re-print the very `YYYY-MM-DD` strings the
dates were parsed from (the strict zero-padded domain of `parseDate`), so
the stored strings are the (stripped) input strings. -/
def inputTask (inp : TaskInput) : Task :=
  { name := inp.name, epic_number := inp.epic_number,
    start_date := inp.start_date_str, end_date := inp.end_date_str,
    color := inp.color, priority := inp.priority,
    status := inp.status, is_milestone := inp.is_milestone }

/-- `add_or_update_task` (lines 589-671).  The guards mirror the source
order: empty name; `validate_date_entry` (which fails only on a non-empty
string that does not parse); empty date strings; then
`start_date > end_date`.  Once the first three guards pass, both date
strings are non-empty and parse, so the `strptime` calls at lines 620-621
cannot raise (the `except ValueError` at 622-624 is unreachable) and
`getD 0` extracts exactly the parsed day numbers.  On success the task is
written in place at `edit_index` (resetting it to `-1`) or appended, then
`_save_history()` and `save_tasks()` run. -/
def add_or_update_task (inp : TaskInput) (s : AppState) : AppState :=
  if inp.name = "" then s
  else if (inp.start_date_str ≠ "" ∧ parseDate inp.start_date_str = none) ∨
          (inp.end_date_str ≠ "" ∧ parseDate inp.end_date_str = none) then s
  else if inp.start_date_str = "" ∨ inp.end_date_str = "" then s
  else if (parseDate inp.end_date_str).getD 0 < (parseDate inp.start_date_str).getD 0 then s
  else
    let s1 :=
      if 0 ≤ s.edit_index then
        { s with tasks := s.tasks.set s.edit_index.toNat (inputTask inp),
                 edit_index := -1 }
      else
        { s with tasks := s.tasks ++ [inputTask inp] }
    save_tasks (saveHistory s1)

/-- The validation run by `add_or_update_task`, as one boolean: name
non-empty, both dates parse (which forces them non-empty), start ≤ end. -/
def validInput (inp : TaskInput) : Bool :=
  inp.name ≠ "" && (parseDate inp.start_date_str).isSome &&
    (parseDate inp.end_date_str).isSome &&
    decide ((parseDate inp.start_date_str).getD 0 ≤ (parseDate inp.end_date_str).getD 0)

/-- `delete_task` (lines 705-713), with the confirmation dialog answered
yes: delete the task at `index`, then `_save_history()` and
`save_tasks()`.  An out-of-range index raises `IndexError` in the source
(spec §7 treats that as an invariant violation); here it is a no-op. -/
def delete_task (i : Nat) (s : AppState) : AppState :=
  if i < s.tasks.length then
    save_tasks (saveHistory { s with tasks := s.tasks.eraseIdx i })
  else s

/-! ### Sorting -/

inductive SortCriteria where
  | byName | byStart | byEnd | byPriority | byStatus
deriving DecidableEq, Repr

/-- `priority_order.get(t.get("priority", "Medium"), 0)` at lines 734, 741:
rank of a priority string, unknown values rank 0. -/
def priorityRank (p : String) : Nat :=
  if p = "Critical" then 4 else if p = "High" then 3
  else if p = "Medium" then 2 else if p = "Low" then 1 else 0

/-- `status_order.get(t.get("status", "Not Started"), 0)` at lines 735, 742. -/
def statusRank (p : String) : Nat :=
  if p = "Completed" then 4 else if p = "In Progress" then 3
  else if p = "Not Started" then 2 else if p = "Blocked" then 1 else 0

/-- Strict comparison of the sort keys computed by the lambda at lines
737-743.  The date criteria re-parse the stored strings (`strptime`
raises there on an unparseable stored date; the model compares parsed
values and is used under the parseability invariant). -/
def sortKeyLt (c : SortCriteria) (a b : Task) : Bool :=
  match c with
  | .byName => decide (a.name < b.name)
  | .byStart => decide ((parseDate a.start_date).getD 0 < (parseDate b.start_date).getD 0)
  | .byEnd => decide ((parseDate a.end_date).getD 0 < (parseDate b.end_date).getD 0)
  | .byPriority => decide (priorityRank a.priority < priorityRank b.priority)
  | .byStatus => decide (statusRank a.status < statusRank b.status)

/-- Insert `x` after every element whose key is strictly smaller — the
insertion step of the unique stable ascending sort. -/
def insertSorted (lt : Task → Task → Bool) (x : Task) : List Task → List Task
  | [] => [x]
  | y :: ys => if lt y x then y :: insertSorted lt x ys else x :: y :: ys

/-- `list.sort(key=...)` (line 737): Python's sort is exactly the stable
ascending sort by the key, which this insertion sort computes. -/
def stableSortBy (lt : Task → Task → Bool) : List Task → List Task
  | [] => []
  | x :: xs => insertSorted lt x (stableSortBy lt xs)

/-- `sort_tasks` (lines 730-745): reorder `self.tasks` in place and
re-render.  No `_save_history()` and no `save_tasks()` call occurs here.
(The `current_sort_criteria` field set at line 731 is never read anywhere
else in the program and is omitted.) -/
def sort_tasks (c : SortCriteria) (s : AppState) : AppState :=
  { s with tasks := stableSortBy (sortKeyLt c) s.tasks }

/-! ### Import (`load_tasks_from_file`, lines 1008-1056) -/

/-- One CSV row as the importer reads it: the `row.get(...)` defaults have
already been applied and the fields `.strip()`-ped (lines 1026-1035);
`is_milestone` is kept as its raw text. -/
structure CsvRow where
  name : String
  epic_number : String
  start_date : String
  end_date : String
  color : String
  priority : String
  status : String
  is_milestone_str : String
deriving DecidableEq, Repr

/-- The task dictionary built from a CSV row (lines 1026-1035);
`is_milestone` is `row.get("is_milestone", "False").lower() == "true"`. -/
def csvRowToTask (r : CsvRow) : Task :=
  { name := r.name, epic_number := r.epic_number,
    start_date := r.start_date, end_date := r.end_date,
    color := r.color, priority := r.priority, status := r.status,
    is_milestone := r.is_milestone_str.toList.map Char.toLower == "true".toList }

/-- Lines 1036-1042: keep a row iff both of its date strings parse with
`strptime("%Y-%m-%d")`; otherwise print a diagnostic and skip it.  No
other check (in particular no `start <= end` check) is made. -/
def importCsvTasks (rows : List CsvRow) : List Task :=
  rows.filterMap fun r =>
    let t := csvRowToTask r
    if (parseDate t.start_date).isSome ∧ (parseDate t.end_date).isSome then some t
    else none

/-- The CSV branch of `load_tasks_from_file`: replace the task list with
the validated rows, then `_save_history()` (which also saves the file). -/
def load_tasks_from_file_csv (rows : List CsvRow) (s : AppState) : AppState :=
  saveHistory { s with tasks := importCsvTasks rows }

/-- The JSON branch of `load_tasks_from_file` (lines 1017-1020): the
decoded array replaces the task list with no validation of any record,
then `_save_history()`. -/
def load_tasks_from_file_json (ts : List Task) (s : AppState) : AppState :=
  saveHistory { s with tasks := ts }

/-- Startup (`__init__`, lines 24-77): tasks come from the persisted file
(or empty), `edit_index = -1`, empty history with cursor `-1`, then the
initial `_save_history()`. -/
def initState (ts : List Task) : AppState :=
  saveHistory { tasks := ts, edit_index := -1, history := [],
                history_index := -1, savedFile := ts }

/-! ### Committed mutations (for the undo/redo analysis) -/

/-- The state shape `_save_history` establishes and every mutation path
re-establishes: the cursor sits on the last history entry and that entry
is a snapshot of the current task list. -/
def AtFrontier (s : AppState) : Prop :=
  s.history_index = (s.history.length : Int) - 1 ∧
    s.history.getLast? = some s.tasks

/-- One committed mutation of the task list, in the shape every mutating
operation uses it: install the new list, then `_save_history()`. -/
def commitTasks (ts : List Task) (s : AppState) : AppState :=
  saveHistory { s with tasks := ts }

/-- A sequence of committed mutations, oldest first. -/
def commitList (ms : List (List Task)) (s : AppState) : AppState :=
  ms.foldl (fun st ts => commitTasks ts st) s

/-! ### Filtering (`render_chart`, lines 754-791) -/

/-- Substring test on character lists: Python's `pat in hay`
(the empty pattern is contained in everything). -/
def charSub (pat : List Char) : List Char → Bool
  | [] => pat.isEmpty
  | c :: rest => pat.isPrefixOf (c :: rest) || charSub pat rest

/-- Line 758: `epic_filter_value.lower() in t.get("epic_number", "").lower()`,
the case-insensitive substring match. -/
def epicMatches (filterVal : String) (t : Task) : Bool :=
  charSub (filterVal.toList.map Char.toLower) (t.epic_number.toList.map Char.toLower)

/-- Lines 786-789: keep a task unless it ends before the filter start or
starts after the filter end, each bound applied only when present.  The
stored date strings are re-parsed here (the loop raises on an unparseable
stored date; the model is used under the parseability invariant). -/
def dateInRange (fs fe : Option Nat) (t : Task) : Bool :=
  (match fs with
   | some f => !decide ((parseDate t.end_date).getD 0 < f)
   | none => true) &&
  (match fe with
   | some f => !decide (f < (parseDate t.start_date).getD 0)
   | none => true)

/-- The visible-task computation of `render_chart` (lines 754-791): the
epic filter applies when the value is non-empty and differs from the
sentinel `"All Epics"`; the date filter applies when either bound is
present.  Order is preserved. -/
def visibleTasks (epicVal : String) (fs fe : Option Nat) (ts : List Task) : List Task :=
  let l1 := if epicVal ≠ "" ∧ epicVal ≠ "All Epics"
            then ts.filter (epicMatches epicVal) else ts
  if fs.isSome || fe.isSome then l1.filter (dateInRange fs fe) else l1

/-! ### Week axis and occupancy (`render_chart` lines 801-813, 863-865;
`export_to_excel` lines 1086-1096, 1117-1119) -/

/-- The `while current_week_start <= max_date` loop (lines 811-813),
written with explicit fuel so that it is structurally recursive and
kernel-evaluable; `cur` grows by 7 each iteration, so
`maxD + 1 - cur` iterations always suffice. -/
def weekAxisGo : Nat → Nat → Nat → List Nat
  | 0, _, _ => []
  | fuel + 1, cur, maxD =>
    if cur ≤ maxD then cur :: weekAxisGo fuel (cur + 7) maxD else []

/-- Lines 809-813: buckets from the Monday on/before `minD`, stepping by
7 days while `≤ maxD`. -/
def weekAxis (minD maxD : Nat) : List Nat :=
  weekAxisGo (maxD + 1 - mondayOf minD) (mondayOf minD) maxD

/-- Lines 802-803: the parsed start dates of the visible tasks (the
program raises on an unparseable stored date; under the parseability
invariant `filterMap` returns exactly the parsed list). -/
def startDates (ts : List Task) : List Nat :=
  ts.filterMap fun t => parseDate t.start_date

/-- Lines 802-803 for end dates. -/
def endDates (ts : List Task) : List Nat :=
  ts.filterMap fun t => parseDate t.end_date

/-- Python `min` of a non-empty list (0 on `[]`, where the program raises). -/
def listMin : List Nat → Nat
  | [] => 0
  | x :: xs => xs.foldl Nat.min x

/-- Python `max` of a non-empty list (0 on `[]`, where the program raises). -/
def listMax : List Nat → Nat
  | [] => 0
  | x :: xs => xs.foldl Nat.max x

/-- The week axis `render_chart` computes for a visible task list
(lines 801-813): `min_date` over start dates, `max_date` over end dates,
then the Monday-stepped bucket loop. -/
def weekAxisOf (ts : List Task) : List Nat :=
  weekAxis (listMin (startDates ts)) (listMax (endDates ts))

/-- Line 865: `max(task_start_date, week_start) <= min(task_end_date, week_end)`
with `week_end = week_start + timedelta(days=6)` — the occupancy test of
the chart renderer. -/
def occupiesN (taskStart taskEnd w : Nat) : Bool :=
  decide (max taskStart w ≤ min taskEnd (w + 6))

/-- Lines 1117-1119: the identical test in `export_to_excel`. -/
def excelOccupiesN (taskStart taskEnd w : Nat) : Bool :=
  decide (max taskStart w ≤ min taskEnd (w + 6))

/-! ### Concrete fixtures used by witnesses and counterexamples -/

/-- Task A of the spec's example scenario (2024-01-01 .. 2024-01-03). -/
def taskA : Task :=
  { name := "A", epic_number := "", start_date := "2024-01-01",
    end_date := "2024-01-03", color := "#FF0000", priority := "Medium",
    status := "Not Started", is_milestone := false }

/-- Task B of the spec's example scenario (2024-01-08 .. 2024-01-10). -/
def taskB : Task :=
  { name := "B", epic_number := "", start_date := "2024-01-08",
    end_date := "2024-01-10", color := "#00FF00", priority := "Medium",
    status := "Not Started", is_milestone := false }

/-- A single-day task on 2024-01-10. -/
def taskOneDay : Task :=
  { name := "single", epic_number := "", start_date := "2024-01-10",
    end_date := "2024-01-10", color := "#0000FF", priority := "Medium",
    status := "Not Started", is_milestone := true }

/-- A `Critical`-priority task. -/
def taskCrit : Task :=
  { name := "crit", epic_number := "", start_date := "2024-01-01",
    end_date := "2024-01-02", color := "#000000", priority := "Critical",
    status := "In Progress", is_milestone := false }

/-- A `Low`-priority task. -/
def taskLow : Task :=
  { name := "low", epic_number := "", start_date := "2024-01-01",
    end_date := "2024-01-02", color := "#000000", priority := "Low",
    status := "Blocked", is_milestone := false }

/-- A task whose epic number is `"E1"`. -/
def taskE1 : Task :=
  { name := "epic task", epic_number := "E1", start_date := "2024-01-01",
    end_date := "2024-01-02", color := "#000000", priority := "Medium",
    status := "Not Started", is_milestone := false }

/-- A CSV row whose two dates parse but are out of order
(start 2024-01-10, end 2024-01-01). -/
def rowInverted : CsvRow :=
  { name := "inverted", epic_number := "", start_date := "2024-01-10",
    end_date := "2024-01-01", color := "#000000", priority := "Medium",
    status := "Not Started", is_milestone_str := "False" }

/-- A fully valid add/update input. -/
def inputGood : TaskInput :=
  { name := "N", epic_number := "E2", start_date_str := "2024-01-05",
    end_date_str := "2024-01-06", color := "#112233", priority := "High",
    status := "In Progress", is_milestone := false }

/-- An add/update input with an empty task name (fails validation). -/
def inputEmptyName : TaskInput :=
  { name := "", epic_number := "", start_date_str := "2024-01-05",
    end_date_str := "2024-01-06", color := "#112233", priority := "Medium",
    status := "Not Started", is_milestone := false }

end Gantt

namespace Gantt

theorem rataDie_20240101 : rataDie 2024 1 1 = 738886 := by decide

theorem parseDate_20240110 : parseDate "2024-01-10" = some 738895 := by decide

theorem weekday_20240101 : weekdayOf (rataDie 2024 1 1) = 0 := by decide

/-! ### Week-axis structure lemmas -/

lemma weekAxisGo_mem_forward :
    ∀ (fuel cur maxD w : Nat), w ∈ weekAxisGo fuel cur maxD →
      ∃ k, w = cur + 7 * k ∧ w ≤ maxD := by
  intro fuel
  induction fuel with
  | zero =>
    intro cur maxD w hw
    exact absurd hw (by simp [weekAxisGo])
  | succ f ih =>
    intro cur maxD w hw
    rw [weekAxisGo] at hw
    by_cases hc : cur ≤ maxD
    · rw [if_pos hc] at hw
      rcases List.mem_cons.mp hw with rfl | hw'
      · exact ⟨0, by omega, hc⟩
      · obtain ⟨k, hk, hle⟩ := ih (cur + 7) maxD w hw'
        exact ⟨k + 1, by omega, hle⟩
    · rw [if_neg hc] at hw
      exact absurd hw (by simp)

lemma weekAxisGo_mem_rev :
    ∀ (fuel cur maxD w : Nat), maxD + 1 - cur ≤ fuel →
      (∃ k, w = cur + 7 * k ∧ w ≤ maxD) → w ∈ weekAxisGo fuel cur maxD := by
  intro fuel
  induction fuel with
  | zero =>
    rintro cur maxD w hf ⟨k, rfl, hle⟩
    exact absurd hle (by omega)
  | succ f ih =>
    rintro cur maxD w hf ⟨k, rfl, hle⟩
    have hc : cur ≤ maxD := by omega
    rw [weekAxisGo, if_pos hc]
    cases k with
    | zero => simp
    | succ k' =>
      refine List.mem_cons_of_mem _ (ih (cur + 7) maxD _ (by omega) ⟨k', by omega, hle⟩)

lemma weekAxisGo_pairwise :
    ∀ (fuel cur maxD : Nat), (weekAxisGo fuel cur maxD).Pairwise (· < ·) := by
  intro fuel
  induction fuel with
  | zero => intro cur maxD; simp [weekAxisGo]
  | succ f ih =>
    intro cur maxD
    rw [weekAxisGo]
    by_cases hc : cur ≤ maxD
    · rw [if_pos hc]
      refine List.pairwise_cons.mpr ⟨?_, ih _ _⟩
      intro w hw
      obtain ⟨k, rfl, _⟩ := weekAxisGo_mem_forward f (cur + 7) maxD w hw
      omega
    · rw [if_neg hc]; simp

lemma weekAxisGo_head (fuel cur maxD : Nat) (hf : 1 ≤ fuel) (hc : cur ≤ maxD) :
    (weekAxisGo fuel cur maxD).head? = some cur := by
  cases fuel with
  | zero => omega
  | succ f => rw [weekAxisGo, if_pos hc]; rfl

lemma weekAxis_mem (minD maxD w : Nat) :
    w ∈ weekAxis minD maxD ↔ ∃ k, w = mondayOf minD + 7 * k ∧ w ≤ maxD := by
  constructor
  · exact weekAxisGo_mem_forward _ _ _ _
  · exact weekAxisGo_mem_rev _ _ _ _ (Nat.le_refl _)

lemma weekAxis_head (minD maxD : Nat) (h : mondayOf minD ≤ maxD) :
    (weekAxis minD maxD).head? = some (mondayOf minD) := by
  unfold weekAxis
  exact weekAxisGo_head _ _ _ (by omega) h

lemma weekAxis_pairwise (minD maxD : Nat) :
    (weekAxis minD maxD).Pairwise (· < ·) := weekAxisGo_pairwise _ _ _

lemma weekAxis_nodup (minD maxD : Nat) : (weekAxis minD maxD).Nodup :=
  (weekAxis_pairwise minD maxD).imp Nat.ne_of_lt

/-! ### Monday arithmetic -/

lemma mondayOf_le (d : Nat) : mondayOf d ≤ d := by
  unfold mondayOf weekdayOf; omega

lemma le_mondayOf_add (d : Nat) : d ≤ mondayOf d + 6 := by
  unfold mondayOf weekdayOf; omega

lemma mondayOf_mod (d : Nat) (h : 1 ≤ d) : mondayOf d % 7 = 1 := by
  unfold mondayOf weekdayOf; omega

lemma weekdayOf_mondayOf (d : Nat) (h : 1 ≤ d) : weekdayOf (mondayOf d) = 0 := by
  unfold mondayOf weekdayOf; omega

lemma mondayOf_mono {a b : Nat} (h : a ≤ b) : mondayOf a ≤ mondayOf b := by
  unfold mondayOf weekdayOf; omega

lemma mondayOf_aligned {a b : Nat} (ha : 1 ≤ a) (hb : 1 ≤ b) (h : a ≤ b) :
    ∃ k, mondayOf b = mondayOf a + 7 * k := by
  refine ⟨(mondayOf b - mondayOf a) / 7, ?_⟩
  have h1 := mondayOf_mod a ha
  have h2 := mondayOf_mod b hb
  have h3 := mondayOf_mono h
  omega

/-! ### `min`/`max` over non-empty lists -/

lemma foldl_min_le_init : ∀ (xs : List Nat) (a : Nat), xs.foldl Nat.min a ≤ a := by
  intro xs
  induction xs with
  | nil => intro a; exact Nat.le_refl a
  | cons x xs ih =>
    intro a
    calc (x :: xs).foldl Nat.min a = xs.foldl Nat.min (Nat.min a x) := rfl
    _ ≤ Nat.min a x := ih _
    _ ≤ a := Nat.min_le_left _ _

lemma foldl_min_le_mem : ∀ (xs : List Nat) (a x : Nat), x ∈ xs → xs.foldl Nat.min a ≤ x := by
  intro xs
  induction xs with
  | nil => intro a x hx; exact absurd hx (by simp)
  | cons y ys ih =>
    intro a x hx
    rcases List.mem_cons.mp hx with rfl | hx'
    · calc (x :: ys).foldl Nat.min a = ys.foldl Nat.min (Nat.min a x) := rfl
      _ ≤ Nat.min a x := foldl_min_le_init _ _
      _ ≤ x := Nat.min_le_right _ _
    · exact ih _ _ hx'

lemma foldl_min_mem_or : ∀ (xs : List Nat) (a : Nat),
    xs.foldl Nat.min a = a ∨ xs.foldl Nat.min a ∈ xs := by
  intro xs
  induction xs with
  | nil => intro a; exact Or.inl rfl
  | cons x xs ih =>
    intro a
    have hstep : (x :: xs).foldl Nat.min a = xs.foldl Nat.min (Nat.min a x) := rfl
    rcases ih (Nat.min a x) with h | h
    · rcases Nat.le_total a x with hax | hxa
      · exact Or.inl (by rw [hstep, h]; exact Nat.min_eq_left hax)
      · exact Or.inr (List.mem_cons.mpr (Or.inl
          (by rw [hstep, h]; exact Nat.min_eq_right hxa)))
    · exact Or.inr (List.mem_cons.mpr (Or.inr (by rw [hstep]; exact h)))

lemma listMin_le {l : List Nat} {x : Nat} (hx : x ∈ l) : listMin l ≤ x := by
  cases l with
  | nil => exact absurd hx (by simp)
  | cons y ys =>
    rcases List.mem_cons.mp hx with rfl | hx'
    · exact foldl_min_le_init _ _
    · exact foldl_min_le_mem _ _ _ hx'

lemma listMin_mem {l : List Nat} (h : l ≠ []) : listMin l ∈ l := by
  cases l with
  | nil => exact absurd rfl h
  | cons y ys =>
    rcases foldl_min_mem_or ys y with h' | h'
    · exact List.mem_cons.mpr (Or.inl h')
    · exact List.mem_cons.mpr (Or.inr h')

lemma foldl_max_init_le : ∀ (xs : List Nat) (a : Nat), a ≤ xs.foldl Nat.max a := by
  intro xs
  induction xs with
  | nil => intro a; exact Nat.le_refl a
  | cons x xs ih =>
    intro a
    calc a ≤ Nat.max a x := Nat.le_max_left _ _
    _ ≤ xs.foldl Nat.max (Nat.max a x) := ih _
    _ = (x :: xs).foldl Nat.max a := rfl

lemma foldl_max_mem_le : ∀ (xs : List Nat) (a x : Nat), x ∈ xs → x ≤ xs.foldl Nat.max a := by
  intro xs
  induction xs with
  | nil => intro a x hx; exact absurd hx (by simp)
  | cons y ys ih =>
    intro a x hx
    rcases List.mem_cons.mp hx with rfl | hx'
    · calc x ≤ Nat.max a x := Nat.le_max_right _ _
      _ ≤ ys.foldl Nat.max (Nat.max a x) := foldl_max_init_le _ _
      _ = (x :: ys).foldl Nat.max a := rfl
    · exact ih _ _ hx'

lemma le_listMax {l : List Nat} {x : Nat} (hx : x ∈ l) : x ≤ listMax l := by
  cases l with
  | nil => exact absurd hx (by simp)
  | cons y ys =>
    rcases List.mem_cons.mp hx with rfl | hx'
    · exact foldl_max_init_le _ _
    · exact foldl_max_mem_le _ _ _ hx'

/-! ### `parseDate` facts -/

lemma parseDate_pos {s : String} {d : Nat} (h : parseDate s = some d) : 1 ≤ d := by
  simp only [parseDate] at h
  split at h
  · split at h
    · split at h
      · rename_i hguard
        have hd : rataDie _ _ _ = d := Option.some.inj h
        revert hd
        unfold rataDie
        omega
      · exact absurd h (by simp)
    · exact absurd h (by simp)
  · exact absurd h (by simp)

lemma parseDate_ne_empty {s : String} {d : Nat} (h : parseDate s = some d) : s ≠ "" := by
  intro hs
  rw [hs] at h
  have hnone : parseDate "" = none := by decide
  rw [hnone] at h
  exact Option.noConfusion h

/-! ### Valid tasks, start/end date lists -/

lemma datesOk_iff {t : Task} :
    datesOk t = true ↔
      ∃ a b, parseDate t.start_date = some a ∧ parseDate t.end_date = some b ∧ a ≤ b := by
  unfold datesOk
  cases hs : parseDate t.start_date <;> cases he : parseDate t.end_date <;> simp

lemma mem_startDates {ts : List Task} {d : Nat} :
    d ∈ startDates ts ↔ ∃ t ∈ ts, parseDate t.start_date = some d := by
  simp [startDates]

lemma mem_endDates {ts : List Task} {d : Nat} :
    d ∈ endDates ts ↔ ∃ t ∈ ts, parseDate t.end_date = some d := by
  simp [endDates]

lemma startDates_ne_nil {ts : List Task} (hne : ts ≠ [])
    (hv : ∀ t ∈ ts, datesOk t = true) : startDates ts ≠ [] := by
  cases ts with
  | nil => exact absurd rfl hne
  | cons t ts' =>
    obtain ⟨a, b, hsa, _, _⟩ := datesOk_iff.mp (hv t (by simp))
    exact List.ne_nil_of_mem (mem_startDates.mpr ⟨t, by simp, hsa⟩)

/-- Under the validity invariant the axis bounds behave: the minimum start
is a positive day number and is at most the maximum end. -/
lemma axis_bounds {ts : List Task} (hne : ts ≠ [])
    (hv : ∀ t ∈ ts, datesOk t = true) :
    1 ≤ listMin (startDates ts) ∧ listMin (startDates ts) ≤ listMax (endDates ts) := by
  have hmem := listMin_mem (startDates_ne_nil hne hv)
  obtain ⟨t0, ht0, hp0⟩ := mem_startDates.mp hmem
  obtain ⟨a, b, hsa, hsb, hab⟩ := datesOk_iff.mp (hv t0 ht0)
  have ha : a = listMin (startDates ts) := by
    rw [hp0] at hsa; exact (Option.some.inj hsa).symm
  refine ⟨parseDate_pos hp0, ?_⟩
  have hb : b ≤ listMax (endDates ts) := le_listMax (mem_endDates.mpr ⟨t0, ht0, hsb⟩)
  omega

/-- The Monday of any visible task's parsed start date is a bucket of the
computed week axis, and its 7-day span contains that date. -/
lemma mondayOf_start_mem_axis {ts : List Task} (hv : ∀ t ∈ ts, datesOk t = true)
    {t : Task} (ht : t ∈ ts) {d : Nat} (hd : parseDate t.start_date = some d) :
    mondayOf d ∈ weekAxisOf ts ∧ mondayOf d ≤ d ∧ d ≤ mondayOf d + 6 := by
  have hdmem : d ∈ startDates ts := mem_startDates.mpr ⟨t, ht, hd⟩
  have hmin_le : listMin (startDates ts) ≤ d := listMin_le hdmem
  have hminpos : 1 ≤ listMin (startDates ts) := by
    obtain ⟨t0, ht0, hp0⟩ := mem_startDates.mp (listMin_mem (List.ne_nil_of_mem hdmem))
    exact parseDate_pos hp0
  have hdpos : 1 ≤ d := parseDate_pos hd
  obtain ⟨a, b, hsa, hsb, hab⟩ := datesOk_iff.mp (hv t ht)
  have had : a = d := by rw [hd] at hsa; exact (Option.some.inj hsa).symm
  have hdmax : d ≤ listMax (endDates ts) := by
    have hb : b ≤ listMax (endDates ts) := le_listMax (mem_endDates.mpr ⟨t, ht, hsb⟩)
    omega
  obtain ⟨k, hk⟩ := mondayOf_aligned hminpos hdpos hmin_le
  refine ⟨(weekAxis_mem _ _ _).mpr ⟨k, hk, ?_⟩, mondayOf_le d, le_mondayOf_add d⟩
  exact Nat.le_trans (mondayOf_le d) hdmax

/-! ### Occupancy arithmetic -/

lemma occupiesN_iff (a b w : Nat) :
    occupiesN a b w = true ↔ ∃ x, a ≤ x ∧ x ≤ b ∧ w ≤ x ∧ x ≤ w + 6 := by
  unfold occupiesN
  simp only [decide_eq_true_eq, Nat.max_le, Nat.le_min]
  constructor
  · intro h
    rcases Nat.le_total a w with hc | hc
    · exact ⟨w, hc, by omega, Nat.le_refl w, by omega⟩
    · exact ⟨a, Nat.le_refl a, by omega, hc, by omega⟩
  · rintro ⟨x, h1, h2, h3, h4⟩
    omega

lemma occupiesN_single (d w : Nat) : occupiesN d d w = true ↔ w ≤ d ∧ d ≤ w + 6 := by
  unfold occupiesN
  simp only [decide_eq_true_eq, Nat.max_le, Nat.le_min]
  omega

/-- In a duplicate-free list with a unique element satisfying `p`,
filtering returns exactly that element. -/
lemma filter_eq_single {p : Nat → Bool} :
    ∀ {l : List Nat}, l.Nodup → ∀ {m : Nat}, m ∈ l →
      (∀ x ∈ l, p x = true ↔ x = m) → l.filter p = [m] := by
  intro l
  induction l with
  | nil => intro _ m hm _; exact absurd hm (by simp)
  | cons x xs ih =>
    intro hnd m hm hp
    rcases List.mem_cons.mp hm with rfl | hm'
    · rw [List.filter_cons_of_pos ((hp m (by simp)).mpr rfl)]
      have hnil : xs.filter p = [] := by
        refine List.filter_eq_nil_iff.mpr fun y hy hpy => ?_
        have hym : y = m := (hp y (List.mem_cons_of_mem _ hy)).mp hpy
        exact (List.nodup_cons.mp hnd).1 (hym ▸ hy)
      rw [hnil]
    · have hxm : x ≠ m := by
        intro he
        exact (List.nodup_cons.mp hnd).1 (he ▸ hm')
      have hx : ¬ p x = true := fun hpx => hxm ((hp x (by simp)).mp hpx)
      rw [List.filter_cons_of_neg hx]
      exact ih (List.nodup_cons.mp hnd).2 hm' fun y hy => hp y (List.mem_cons_of_mem _ hy)

/-- A single-day task occupies exactly the bucket of its own Monday. -/
lemma filter_axis_single_day {ts : List Task} (hv : ∀ t ∈ ts, datesOk t = true)
    {t : Task} (ht : t ∈ ts) {d : Nat}
    (hds : parseDate t.start_date = some d) :
    (weekAxisOf ts).filter (occupiesN d d) = [mondayOf d] := by
  obtain ⟨hmem, hle, hge⟩ := mondayOf_start_mem_axis hv ht hds
  have hdpos : 1 ≤ d := parseDate_pos hds
  refine filter_eq_single (weekAxis_nodup _ _) hmem fun w hw => ?_
  rw [occupiesN_single]
  constructor
  · rintro ⟨hwd, hdw⟩
    obtain ⟨k, hk, _⟩ := (weekAxis_mem _ _ _).mp hw
    obtain ⟨k', hk', _⟩ := (weekAxis_mem _ _ _).mp hmem
    have hmod : mondayOf (listMin (startDates ts)) % 7 = 1 := by
      have h1 : 1 ≤ listMin (startDates ts) := by
        obtain ⟨t0, ht0, hp0⟩ :=
          mem_startDates.mp (listMin_mem (List.ne_nil_of_mem
            (mem_startDates.mpr ⟨t, ht, hds⟩)))
        exact parseDate_pos hp0
      exact mondayOf_mod _ h1
    have hmd : mondayOf d ≤ d := mondayOf_le d
    have hmd6 : d ≤ mondayOf d + 6 := le_mondayOf_add d
    omega
  · rintro rfl
    exact ⟨hle, hge⟩

/-! ### Claim C5 -/

/-- C5: for every non-empty visible task sequence with parseable dates
(tasks as in the data model, `start <= end`), the computed week axis
begins at the Monday on or before the earliest start date, its buckets
are exactly the Mondays stepping by 7 days while `<= max_date`, and on
the example tasks A(2024-01-01..2024-01-03), B(2024-01-08..2024-01-10)
the axis is exactly the two buckets 2024-01-01 and 2024-01-08. -/
theorem C5_week_axis (ts : List Task) (hne : ts ≠ [])
    (hv : ∀ t ∈ ts, datesOk t = true) :
    (weekAxisOf ts).head? = some (mondayOf (listMin (startDates ts))) ∧
    weekdayOf (mondayOf (listMin (startDates ts))) = 0 ∧
    mondayOf (listMin (startDates ts)) ≤ listMin (startDates ts) ∧
    (∀ w, w ∈ weekAxisOf ts ↔
      ∃ k, w = mondayOf (listMin (startDates ts)) + 7 * k ∧
        w ≤ listMax (endDates ts)) ∧
    (∀ w ∈ weekAxisOf ts, weekdayOf w = 0) ∧
    weekAxisOf [taskA, taskB] = [rataDie 2024 1 1, rataDie 2024 1 8] := by
  obtain ⟨h1, h2⟩ := axis_bounds hne hv
  have hmono : mondayOf (listMin (startDates ts)) ≤ listMax (endDates ts) :=
    Nat.le_trans (mondayOf_le _) h2
  refine ⟨weekAxis_head _ _ hmono, weekdayOf_mondayOf _ h1, mondayOf_le _,
    fun w => weekAxis_mem _ _ _, ?_, by decide⟩
  intro w hw
  obtain ⟨k, rfl, _⟩ := (weekAxis_mem _ _ _).mp hw
  have hm := mondayOf_mod _ h1
  unfold weekdayOf
  omega

/-- Witness for `C5_week_axis` at the spec's example scenario. -/
theorem C5_week_axis_witness :
    (weekAxisOf [taskA, taskB]).head? =
      some (mondayOf (listMin (startDates [taskA, taskB]))) ∧
    weekAxisOf [taskA, taskB] = [rataDie 2024 1 1, rataDie 2024 1 8] :=
  ⟨(C5_week_axis [taskA, taskB] (by decide) (by decide)).1,
   (C5_week_axis [taskA, taskB] (by decide) (by decide)).2.2.2.2.2⟩

/-! ### Claim C10 -/

/-- C10: for every non-empty visible task sequence with parseable dates
(tasks as in the data model), the week axis is non-empty, its first
bucket is a Monday (weekday 0) that is `<=` the minimum start date, and
every visible task's start date lies inside some bucket's 7-day span. -/
theorem C10_axis_invariants (ts : List Task) (hne : ts ≠ [])
    (hv : ∀ t ∈ ts, datesOk t = true) :
    weekAxisOf ts ≠ [] ∧
    (weekAxisOf ts).head? = some (mondayOf (listMin (startDates ts))) ∧
    weekdayOf (mondayOf (listMin (startDates ts))) = 0 ∧
    mondayOf (listMin (startDates ts)) ≤ listMin (startDates ts) ∧
    ∀ t ∈ ts, ∀ d, parseDate t.start_date = some d →
      ∃ w ∈ weekAxisOf ts, w ≤ d ∧ d ≤ w + 6 := by
  obtain ⟨h1, h2⟩ := axis_bounds hne hv
  have hmono : mondayOf (listMin (startDates ts)) ≤ listMax (endDates ts) :=
    Nat.le_trans (mondayOf_le _) h2
  have hhead := weekAxis_head (listMin (startDates ts)) (listMax (endDates ts)) hmono
  refine ⟨?_, hhead, weekdayOf_mondayOf _ h1, mondayOf_le _, ?_⟩
  · intro hnil
    unfold weekAxisOf at hnil
    rw [hnil] at hhead
    exact Option.noConfusion hhead
  · intro t ht d hd
    obtain ⟨hmem, hle, hge⟩ := mondayOf_start_mem_axis hv ht hd
    exact ⟨mondayOf d, hmem, hle, hge⟩

/-- Witness for `C10_axis_invariants` at the example scenario. -/
theorem C10_axis_invariants_witness :
    weekAxisOf [taskA, taskB] ≠ [] ∧
    (∃ w ∈ weekAxisOf [taskA, taskB], w ≤ 738893 ∧ 738893 ≤ w + 6) :=
  ⟨(C10_axis_invariants [taskA, taskB] (by decide) (by decide)).1,
   (C10_axis_invariants [taskA, taskB] (by decide) (by decide)).2.2.2.2
     taskB (by simp) 738893 (by decide)⟩

/-! ### Claim C6 -/

/-- C6: a visible task occupies a week bucket iff the task's date interval
intersects the bucket's Monday-to-Sunday span `[w, w+6]` (both ends
inclusive); the spreadsheet export applies the identical test; and a
single-day task occupies exactly one bucket of the computed axis — the
one whose span contains its date (concretely, a 2024-01-10..2024-01-10
task occupies only the 2024-01-08 bucket). -/
theorem C6_occupancy :
    (∀ a b w : Nat, occupiesN a b w = true ↔
      ∃ x, a ≤ x ∧ x ≤ b ∧ w ≤ x ∧ x ≤ w + 6) ∧
    (∀ a b w : Nat, excelOccupiesN a b w = occupiesN a b w) ∧
    (∀ (ts : List Task) (t : Task) (d : Nat), t ∈ ts →
      (∀ u ∈ ts, datesOk u = true) →
      parseDate t.start_date = some d → parseDate t.end_date = some d →
      (weekAxisOf ts).filter (occupiesN d d) = [mondayOf d] ∧
        mondayOf d ≤ d ∧ d ≤ mondayOf d + 6) ∧
    (weekAxisOf [taskA, taskB, taskOneDay]).filter (occupiesN 738895 738895) =
      [rataDie 2024 1 8] := by
  refine ⟨occupiesN_iff, fun a b w => rfl, ?_, by decide⟩
  intro ts t d ht hv hds _
  exact ⟨filter_axis_single_day hv ht hds, mondayOf_le d, le_mondayOf_add d⟩

/-- Witness for `C6_occupancy`: its conditional parts instantiated at the
single-day task 2024-01-10 inside the example scenario. -/
theorem C6_occupancy_witness :
    occupiesN 738886 738888 738886 = true ∧
    (weekAxisOf [taskA, taskB, taskOneDay]).filter (occupiesN 738895 738895) =
      [mondayOf 738895] :=
  ⟨(C6_occupancy.1 738886 738888 738886).mpr ⟨738886, by decide, by decide, by decide, by decide⟩,
   (C6_occupancy.2.2.1 [taskA, taskB, taskOneDay] taskOneDay 738895 (by simp)
     (by decide) (by decide) (by decide)).1⟩

/-! ### History-manager lemmas -/

lemma getElem?_eq_some_getD {α : Type _} {l : List α} {n : Nat} (d : α)
    (h : n < l.length) : l[n]? = some (l.getD n d) := by
  rw [List.getElem?_eq_getElem h, List.getD_eq_getElem l d h]

lemma saveHistory_atFrontier (s : AppState) : AtFrontier (saveHistory s) := by
  unfold AtFrontier saveHistory
  exact ⟨rfl, List.getLast?_concat _⟩

lemma initState_atFrontier (ts : List Task) : AtFrontier (initState ts) := by
  unfold initState
  exact saveHistory_atFrontier _

lemma commitTasks_spec {s : AppState} (h : AtFrontier s) (ts : List Task) :
    commitTasks ts s =
      { s with tasks := ts, history := s.history ++ [ts],
               history_index := (s.history.length : Int), savedFile := ts } := by
  obtain ⟨hidx, -⟩ := h
  cases s with
  | mk tks ei hist hi sf =>
    simp only at hidx
    have htoNat : (hi + 1).toNat = hist.length := by omega
    unfold commitTasks saveHistory
    simp only [htoNat, List.take_length]
    simp [List.length_append]

lemma commitList_spec : ∀ (ms : List (List Task)) (s : AppState), AtFrontier s →
    commitList ms s =
      { s with tasks := ms.getLastD s.tasks,
               history := s.history ++ ms,
               history_index := (s.history.length : Int) + ms.length - 1,
               savedFile := ms.getLastD s.savedFile } := by
  intro ms
  induction ms with
  | nil =>
    intro s hf
    obtain ⟨hidx, -⟩ := hf
    cases s with
    | mk tks ei hist hi sf =>
      simp only at hidx
      simp [commitList, List.getLastD]
      omega
  | cons m ms' ih =>
    intro s hf
    have hstep : commitList (m :: ms') s = commitList ms' (commitTasks m s) := rfl
    rw [hstep, commitTasks_spec hf m]
    rw [ih _ (by unfold AtFrontier; simp [List.getLast?_concat, List.length_append])]
    cases s with
    | mk tks ei hist hi sf =>
      simp [List.getLastD_cons, List.length_append, List.append_assoc]
      refine ⟨?_, by omega, ?_⟩ <;>
      · cases ms' with
        | nil => simp
        | cons a l =>
          obtain ⟨x, hx⟩ := Option.isSome_iff_exists.mp
            (List.getLast?_isSome.mpr (List.cons_ne_nil a l))
          simp [hx]

lemma undo_action_eq {s : AppState} (hpos : 0 < s.history_index)
    {snap : List Task}
    (hsnap : s.history[(s.history_index - 1).toNat]? = some snap) :
    undo_action s =
      { s with history_index := s.history_index - 1,
               tasks := snap, savedFile := snap } := by
  unfold undo_action loadFromHistory
  rw [if_pos hpos]
  simp only
  rw [hsnap]

lemma redo_action_eq {s : AppState}
    (hlt : s.history_index < (s.history.length : Int) - 1)
    {snap : List Task}
    (hsnap : s.history[(s.history_index + 1).toNat]? = some snap) :
    redo_action s =
      { s with history_index := s.history_index + 1,
               tasks := snap, savedFile := snap } := by
  unfold redo_action loadFromHistory
  rw [if_pos hlt]
  simp only
  rw [hsnap]

lemma commitTasks_history (st : AppState) (ts' : List Task) :
    (commitTasks ts' st).history =
      st.history.take (st.history_index + 1).toNat ++ [ts'] := rfl

/-! ### Claim C2 -/

/-- C2: from any frontier state, after a sequence of `N ≥ 1` committed
mutations (each installing a task list and running `_save_history`), undo
restores exactly the task list that existed after mutation `N-1`; redo
after that undo restores the list at mutation `N`; undo leaves the stored
history entries untouched (they are exactly the committed lists — the
snapshots are immutable values, so later mutations never alter them); and
a mutation committed after the undo discards the redo entry beyond the
new cursor. -/
theorem C2_undo_redo (s : AppState) (ms : List (List Task))
    (hf : AtFrontier s) (hne : ms ≠ []) :
    (undo_action (commitList ms s)).tasks = (s.tasks :: ms).getD (ms.length - 1) [] ∧
    (redo_action (undo_action (commitList ms s))).tasks = ms.getLastD [] ∧
    (undo_action (commitList ms s)).history = s.history ++ ms ∧
    ∀ ts', (commitTasks ts' (undo_action (commitList ms s))).history =
      s.history ++ ms.dropLast ++ [ts'] := by
  obtain ⟨hidx, hlast⟩ := hf
  have hLpos : s.history ≠ [] := by
    intro h0; rw [h0] at hlast; exact Option.noConfusion hlast
  have hL : 1 ≤ s.history.length := List.length_pos.mpr hLpos
  have hN : 1 ≤ ms.length := List.length_pos.mpr hne
  have hdecomp : s.history.dropLast ++ [s.tasks] = s.history :=
    List.dropLast_append_getLast? _ hlast
  have hdll : s.history.dropLast.length = s.history.length - 1 := List.length_dropLast _
  have hLIT := commitList_spec ms s ⟨hidx, hlast⟩
  have hhist : (commitList ms s).history = s.history ++ ms := by rw [hLIT]
  have hhidx : (commitList ms s).history_index
      = (s.history.length : Int) + ms.length - 1 := by rw [hLIT]
  have hpos : 0 < (commitList ms s).history_index := by rw [hhidx]; omega
  have hkey : (commitList ms s).history[((commitList ms s).history_index - 1).toNat]?
      = some ((s.tasks :: ms).getD (ms.length - 1) []) := by
    rw [hhist, hhidx]
    rw [← hdecomp, List.append_assoc, List.singleton_append]
    have htn : ((((s.history.dropLast ++ [s.tasks]).length : Int)
        + ms.length - 1) - 1).toNat
        = s.history.dropLast.length + (ms.length - 1) := by
      simp only [List.length_append, List.length_singleton]
      omega
    rw [htn]
    rw [List.getElem?_append_right
      (show s.history.dropLast.length ≤ s.history.dropLast.length + (ms.length - 1) by omega)]
    have h2 : s.history.dropLast.length + (ms.length - 1) - s.history.dropLast.length
        = ms.length - 1 := by omega
    rw [h2]
    exact getElem?_eq_some_getD [] (by simp only [List.length_cons]; omega)
  have hundo := undo_action_eq hpos hkey
  have hUtasks : (undo_action (commitList ms s)).tasks
      = (s.tasks :: ms).getD (ms.length - 1) [] := by rw [hundo]
  have hUhist : (undo_action (commitList ms s)).history = s.history ++ ms := by
    rw [hundo]; exact hhist
  have hUidx : (undo_action (commitList ms s)).history_index
      = (s.history.length : Int) + ms.length - 2 := by
    rw [hundo]
    show (commitList ms s).history_index - 1 = _
    rw [hhidx]; ring
  have hlt2 : (undo_action (commitList ms s)).history_index
      < (((undo_action (commitList ms s)).history.length) : Int) - 1 := by
    rw [hUidx, hUhist, List.length_append]
    omega
  have hconsLast : (s.tasks :: ms).getD ms.length [] = ms.getLastD [] := by
    cases ms with
    | nil => exact absurd rfl hne
    | cons a t =>
      show (a :: t).getD t.length [] = _
      rw [List.getLastD_eq_getLast?, List.getLast?_eq_getElem?,
          List.getD_eq_getElem?_getD]
      simp
  have hkey2 : (undo_action (commitList ms s)).history[
      ((undo_action (commitList ms s)).history_index + 1).toNat]?
      = some (ms.getLastD []) := by
    rw [hUhist, hUidx]
    rw [← hdecomp, List.append_assoc, List.singleton_append]
    have htn2 : ((((s.history.dropLast ++ [s.tasks]).length : Int)
        + ms.length - 2) + 1).toNat
        = s.history.dropLast.length + ms.length := by
      simp only [List.length_append, List.length_singleton]
      omega
    rw [htn2]
    rw [List.getElem?_append_right
      (show s.history.dropLast.length ≤ s.history.dropLast.length + ms.length by omega)]
    have h3 : s.history.dropLast.length + ms.length - s.history.dropLast.length
        = ms.length := by omega
    rw [h3, ← hconsLast]
    exact getElem?_eq_some_getD [] (by simp only [List.length_cons]; omega)
  have hredo := redo_action_eq hlt2 hkey2
  refine ⟨hUtasks, by rw [hredo], hUhist, ?_⟩
  intro ts'
  rw [commitTasks_history, hUhist, hUidx]
  have htn3 : (((s.history.length : Int) + ms.length - 2) + 1).toNat
      = s.history.length + (ms.length - 1) := by omega
  rw [htn3, List.take_append_eq_append_take,
      List.take_of_length_le (show s.history.length ≤ s.history.length + (ms.length - 1) by omega)]
  have h4 : s.history.length + (ms.length - 1) - s.history.length = ms.length - 1 := by
    omega
  rw [h4, ← List.dropLast_eq_take, List.append_assoc]

/-- Witness for `C2_undo_redo`: two concrete mutations from the startup
state, then undo and redo. -/
theorem C2_undo_redo_witness :
    (undo_action (commitList [[taskA], [taskA, taskB]] (initState []))).tasks
      = [taskA] ∧
    (redo_action (undo_action
      (commitList [[taskA], [taskA, taskB]] (initState [])))).tasks
      = [taskA, taskB] := by
  have h := C2_undo_redo (initState []) [[taskA], [taskA, taskB]]
    (initState_atFrontier []) (by decide)
  exact ⟨h.1.trans (by decide), h.2.1.trans (by decide)⟩

/-! ### Claim C9 -/

/-- C9: a successful undo (cursor > 0) or redo (cursor below the last
index) moves only the cursor: the history sequence and its entries are
unchanged, the restored task list is the snapshot at the new cursor, and
the persisted default JSON file is synchronously rewritten with exactly
that restored list. -/
theorem C9_undo_redo_persist (s : AppState) :
    (0 < s.history_index → s.history_index < (s.history.length : Int) →
      (undo_action s).history = s.history ∧
      (undo_action s).history_index = s.history_index - 1 ∧
      (undo_action s).tasks = s.history.getD (s.history_index - 1).toNat [] ∧
      (undo_action s).savedFile = (undo_action s).tasks) ∧
    (0 ≤ s.history_index → s.history_index < (s.history.length : Int) - 1 →
      (redo_action s).history = s.history ∧
      (redo_action s).history_index = s.history_index + 1 ∧
      (redo_action s).tasks = s.history.getD (s.history_index + 1).toNat [] ∧
      (redo_action s).savedFile = (redo_action s).tasks) := by
  constructor
  · intro h1 h2
    have hkey : s.history[(s.history_index - 1).toNat]?
        = some (s.history.getD (s.history_index - 1).toNat []) :=
      getElem?_eq_some_getD [] (by omega)
    have hu := undo_action_eq h1 hkey
    exact ⟨by rw [hu], by rw [hu], by rw [hu], by rw [hu]⟩
  · intro h1 h2
    have hkey : s.history[(s.history_index + 1).toNat]?
        = some (s.history.getD (s.history_index + 1).toNat []) :=
      getElem?_eq_some_getD [] (by omega)
    have hr := redo_action_eq h2 hkey
    exact ⟨by rw [hr], by rw [hr], by rw [hr], by rw [hr]⟩

/-- Witness for `C9_undo_redo_persist` at a concrete two-entry history. -/
theorem C9_undo_redo_persist_witness :
    (undo_action (commitTasks [taskA] (initState []))).history =
      (commitTasks [taskA] (initState [])).history ∧
    (undo_action (commitTasks [taskA] (initState []))).savedFile =
      (undo_action (commitTasks [taskA] (initState []))).tasks :=
  ⟨((C9_undo_redo_persist _).1 (by decide) (by decide)).1,
   ((C9_undo_redo_persist _).1 (by decide) (by decide)).2.2.2⟩

/-! ### Add / update lemmas -/

/-- On a valid input `add_or_update_task` reaches the success branch:
set-in-place or append, then `_save_history` and `save_tasks`. -/
lemma add_or_update_valid_eq {inp : TaskInput} (hv : validInput inp = true)
    (s : AppState) :
    add_or_update_task inp s =
      save_tasks (saveHistory (if 0 ≤ s.edit_index then
        { s with tasks := s.tasks.set s.edit_index.toNat (inputTask inp),
                 edit_index := -1 }
      else { s with tasks := s.tasks ++ [inputTask inp] })) := by
  simp only [validInput, Bool.and_eq_true, decide_eq_true_eq] at hv
  obtain ⟨⟨⟨hname, hs⟩, he⟩, hle⟩ := hv
  obtain ⟨sd, hsd⟩ := Option.isSome_iff_exists.mp hs
  obtain ⟨ed, hed⟩ := Option.isSome_iff_exists.mp he
  unfold add_or_update_task
  split
  · rename_i h; exact absurd h hname
  split
  · rename_i h
    exfalso
    rcases h with ⟨-, h⟩ | ⟨-, h⟩
    · rw [h] at hsd; exact Option.noConfusion hsd
    · rw [h] at hed; exact Option.noConfusion hed
  split
  · rename_i h
    exfalso
    rcases h with h | h
    · exact parseDate_ne_empty hsd h
    · exact parseDate_ne_empty hed h
  split
  · rename_i h
    exfalso
    rw [hsd, hed] at h hle
    simp only [Option.getD_some] at h hle
    omega
  · rfl

/-- On an invalid input `add_or_update_task` returns before touching
anything. -/
lemma add_or_update_invalid_eq {inp : TaskInput} (hv : validInput inp = false)
    (s : AppState) : add_or_update_task inp s = s := by
  unfold add_or_update_task
  split
  · rfl
  split
  · rfl
  split
  · rfl
  split
  · rfl
  rename_i h1 h2 h3 h4
  exfalso
  have hsne : inp.start_date_str ≠ "" := fun h => h3 (Or.inl h)
  have hene : inp.end_date_str ≠ "" := fun h => h3 (Or.inr h)
  have hs : (parseDate inp.start_date_str).isSome := by
    rcases hq : parseDate inp.start_date_str with - | v
    · exact absurd (Or.inl ⟨hsne, hq⟩) h2
    · rfl
  have he : (parseDate inp.end_date_str).isSome := by
    rcases hq : parseDate inp.end_date_str with - | v
    · exact absurd (Or.inr ⟨hene, hq⟩) h2
    · rfl
  have hvalid : validInput inp = true := by
    simp only [validInput, Bool.and_eq_true, decide_eq_true_eq]
    exact ⟨⟨⟨h1, hs⟩, he⟩, by omega⟩
  rw [hvalid] at hv
  exact Bool.noConfusion hv

/-! ### Claim C8 -/

/-- C8: an add/update whose name is empty, whose dates are missing or
unparseable, or whose start date is after its end date, aborts without
mutating anything: the task list, the history, and the persisted file are
exactly as before. -/
theorem C8_validation_aborts (inp : TaskInput) (s : AppState)
    (hbad : validInput inp = false) :
    (add_or_update_task inp s).tasks = s.tasks ∧
    (add_or_update_task inp s).history = s.history ∧
    (add_or_update_task inp s).savedFile = s.savedFile := by
  rw [add_or_update_invalid_eq hbad]
  exact ⟨rfl, rfl, rfl⟩

/-- Witness for `C8_validation_aborts`: an empty task name. -/
theorem C8_validation_aborts_witness :
    validInput inputEmptyName = false ∧
    (add_or_update_task inputEmptyName (initState [taskA])).tasks
      = (initState [taskA]).tasks :=
  ⟨by decide, (C8_validation_aborts inputEmptyName (initState [taskA]) (by decide)).1⟩

/-! ### Claim C1 -/

/-- C1 fails on the code: the CSV importer checks only that the two date
strings parse (lines 1036-1042), never that `start <= end`, and the JSON
importer checks nothing — so an import stores a task with
`start_date = 2024-01-10 > end_date = 2024-01-01`. -/
theorem C1_counterexample :
    (load_tasks_from_file_csv [rowInverted] (initState [])).tasks
      = [csvRowToTask rowInverted] ∧
    datesOk (csvRowToTask rowInverted) = false := by
  constructor <;> decide

/-- C1 (amended): `add_or_update_task` stores only validated tasks, so the
`start_date <= end_date` invariant is preserved by every add/update; the
CSV importer re-validates only that both dates parse, skipping rows that
do not; the JSON importer stores the decoded records with no validation
at all. -/
theorem C1_amended_validation :
    (∀ (inp : TaskInput) (s : AppState), (∀ t ∈ s.tasks, datesOk t = true) →
      ∀ t ∈ (add_or_update_task inp s).tasks, datesOk t = true) ∧
    (∀ (rows : List CsvRow) (s : AppState),
      ∀ t ∈ (load_tasks_from_file_csv rows s).tasks,
        (parseDate t.start_date).isSome ∧ (parseDate t.end_date).isSome) ∧
    (∀ (ts : List Task) (s : AppState),
      (load_tasks_from_file_json ts s).tasks = ts) := by
  refine ⟨?_, ?_, fun ts s => rfl⟩
  · intro inp s hall t ht
    rcases hvb : validInput inp with - | -
    · rw [add_or_update_invalid_eq hvb] at ht
      exact hall t ht
    · rw [add_or_update_valid_eq hvb] at ht
      have hnew : datesOk (inputTask inp) = true := by
        simp only [validInput, Bool.and_eq_true, decide_eq_true_eq] at hvb
        obtain ⟨⟨⟨-, hs⟩, he⟩, hle⟩ := hvb
        obtain ⟨sd, hsd⟩ := Option.isSome_iff_exists.mp hs
        obtain ⟨ed, hed⟩ := Option.isSome_iff_exists.mp he
        rw [hsd, hed] at hle
        simp only [Option.getD_some] at hle
        unfold datesOk inputTask
        simp only
        rw [hsd, hed]
        simpa using hle
      have ht' : t ∈ (if 0 ≤ s.edit_index then
          { s with tasks := s.tasks.set s.edit_index.toNat (inputTask inp),
                   edit_index := -1 }
        else { s with tasks := s.tasks ++ [inputTask inp] } : AppState).tasks := ht
      split at ht'
      · simp only at ht'
        rcases List.mem_or_eq_of_mem_set ht' with hmem | rfl
        · exact hall t hmem
        · exact hnew
      · simp only at ht'
        rcases List.mem_append.mp ht' with hmem | hmem
        · exact hall t hmem
        · rw [List.mem_singleton.mp hmem]
          exact hnew
  · intro rows s t ht
    have ht' : t ∈ importCsvTasks rows := ht
    simp only [importCsvTasks, List.mem_filterMap] at ht'
    obtain ⟨r, -, hr⟩ := ht'
    split at hr
    · rename_i hcond
      cases hr
      exact hcond
    · exact Option.noConfusion hr

/-- Witness for `C1_amended_validation` at a concrete valid add. -/
theorem C1_amended_validation_witness :
    datesOk (inputTask inputGood) = true :=
  C1_amended_validation.1 inputGood (initState []) (by decide)
    (inputTask inputGood) (by decide)

/-! ### Claim C3 -/

/-- C3 fails on the code: `sort_tasks` (lines 730-745) re-renders but
never calls `_save_history()` or `save_tasks()`, so after a sort the
history is unchanged (no snapshot) and the persisted file still holds the
pre-sort order. -/
theorem C3_counterexample :
    (sort_tasks SortCriteria.byPriority
        (commitTasks [taskCrit, taskLow] (initState []))).history
      = (commitTasks [taskCrit, taskLow] (initState [])).history ∧
    (sort_tasks SortCriteria.byPriority
        (commitTasks [taskCrit, taskLow] (initState []))).savedFile
      ≠ (sort_tasks SortCriteria.byPriority
          (commitTasks [taskCrit, taskLow] (initState []))).tasks := by
  constructor <;> decide

/-- C3 (amended): add/update (on valid input) and delete (in range) each
trigger both the whole-file persistence write and the appending of a
history snapshot of the new task list; the full-list sort triggers
neither — it changes only the task order. -/
theorem C3_amended_effects :
    (∀ (inp : TaskInput) (s : AppState), validInput inp = true →
      (add_or_update_task inp s).savedFile = (add_or_update_task inp s).tasks ∧
      (add_or_update_task inp s).history
        = s.history.take (s.history_index + 1).toNat
            ++ [(add_or_update_task inp s).tasks]) ∧
    (∀ (i : Nat) (s : AppState), i < s.tasks.length →
      (delete_task i s).savedFile = (delete_task i s).tasks ∧
      (delete_task i s).history
        = s.history.take (s.history_index + 1).toNat ++ [(delete_task i s).tasks] ∧
      (delete_task i s).tasks = s.tasks.eraseIdx i) ∧
    (∀ (c : SortCriteria) (s : AppState),
      (sort_tasks c s).history = s.history ∧
      (sort_tasks c s).history_index = s.history_index ∧
      (sort_tasks c s).savedFile = s.savedFile) := by
  refine ⟨?_, ?_, fun c s => ⟨rfl, rfl, rfl⟩⟩
  · intro inp s hv
    rw [add_or_update_valid_eq hv]
    split
    · exact ⟨rfl, rfl⟩
    · exact ⟨rfl, rfl⟩
  · intro i s hi
    unfold delete_task
    rw [if_pos hi]
    exact ⟨rfl, rfl, rfl⟩

/-- Witness for `C3_amended_effects`: a concrete valid add and a concrete
in-range delete. -/
theorem C3_amended_effects_witness :
    (add_or_update_task inputGood (initState [])).savedFile
      = (add_or_update_task inputGood (initState [])).tasks ∧
    (delete_task 0 (initState [taskA])).tasks = [] := by
  refine ⟨(C3_amended_effects.1 inputGood (initState []) (by decide)).1, ?_⟩
  exact ((C3_amended_effects.2.1 0 (initState [taskA]) (by decide)).2.2).trans (by decide)

/-! ### Sort lemmas: the insertion sort is the stable ascending sort -/

lemma mem_insertSorted (lt : Task → Task → Bool) (x : Task) :
    ∀ (l : List Task) (y : Task), y ∈ insertSorted lt x l ↔ y = x ∨ y ∈ l := by
  intro l
  induction l with
  | nil => intro y; simp [insertSorted]
  | cons z zs ih =>
    intro y
    unfold insertSorted
    by_cases h : lt z x = true
    · rw [if_pos h]
      simp only [List.mem_cons, ih]
      tauto
    · rw [if_neg h]
      simp only [List.mem_cons]

lemma insertSorted_pairwise (k : Task → Nat) (x : Task) :
    ∀ l : List Task, l.Pairwise (fun a b => k a ≤ k b) →
      (insertSorted (fun a b => decide (k a < k b)) x l).Pairwise
        (fun a b => k a ≤ k b) := by
  intro l
  induction l with
  | nil => intro _; simp [insertSorted]
  | cons z zs ih =>
    intro hp
    obtain ⟨hz, hzs⟩ := List.pairwise_cons.mp hp
    unfold insertSorted
    by_cases h : k z < k x
    · rw [if_pos (decide_eq_true h)]
      refine List.pairwise_cons.mpr ⟨?_, ih hzs⟩
      intro y hy
      rcases (mem_insertSorted _ x zs y).mp hy with rfl | hy'
      · exact Nat.le_of_lt h
      · exact hz y hy'
    · rw [if_neg (fun hc => h (of_decide_eq_true hc))]
      have hxz : k x ≤ k z := Nat.le_of_not_lt h
      refine List.pairwise_cons.mpr ⟨?_, hp⟩
      intro y hy
      rcases List.mem_cons.mp hy with rfl | hy'
      · exact hxz
      · exact Nat.le_trans hxz (hz y hy')

lemma filter_cons_pos (p : Task → Bool) (a : Task) (l : List Task)
    (h : p a = true) : (a :: l).filter p = a :: l.filter p := by
  simp [List.filter_cons, h]

lemma filter_cons_neg (p : Task → Bool) (a : Task) (l : List Task)
    (h : ¬ p a = true) : (a :: l).filter p = l.filter p := by
  simp [List.filter_cons, h]

lemma filter_insertSorted (k : Task → Nat) (x : Task) (r : Nat) :
    ∀ l : List Task,
      (insertSorted (fun a b => decide (k a < k b)) x l).filter (fun t => k t == r)
        = if k x == r
          then x :: l.filter (fun t => k t == r)
          else l.filter (fun t => k t == r) := by
  intro l
  induction l with
  | nil =>
    unfold insertSorted
    by_cases hxr : (k x == r) = true
    · rw [if_pos hxr, filter_cons_pos (fun t => k t == r) x [] hxr]
    · rw [if_neg hxr, filter_cons_neg (fun t => k t == r) x [] hxr]
  | cons z zs ih =>
    unfold insertSorted
    by_cases h : k z < k x
    · rw [if_pos (decide_eq_true h)]
      by_cases hzr : (k z == r) = true
      · have hxr : ¬ (k x == r) = true := by
          intro hxr
          have h1 : k z = r := by simpa using hzr
          have h2 : k x = r := by simpa using hxr
          omega
        rw [filter_cons_pos (fun t => k t == r) z
              (insertSorted (fun a b => decide (k a < k b)) x zs) hzr,
            ih, if_neg hxr,
            filter_cons_pos (fun t => k t == r) z zs hzr, if_neg hxr]
      · rw [filter_cons_neg (fun t => k t == r) z
              (insertSorted (fun a b => decide (k a < k b)) x zs) hzr,
            ih, filter_cons_neg (fun t => k t == r) z zs hzr]
    · rw [if_neg (fun hc => h (of_decide_eq_true hc))]
      by_cases hxr : (k x == r) = true
      · rw [filter_cons_pos (fun t => k t == r) x (z :: zs) hxr, if_pos hxr]
      · rw [filter_cons_neg (fun t => k t == r) x (z :: zs) hxr, if_neg hxr]

lemma stableSortBy_pairwise (k : Task → Nat) :
    ∀ ts : List Task,
      (stableSortBy (fun a b => decide (k a < k b)) ts).Pairwise
        (fun a b => k a ≤ k b) := by
  intro ts
  induction ts with
  | nil => simp [stableSortBy]
  | cons x xs ih => exact insertSorted_pairwise k x _ ih

lemma stableSortBy_filter (k : Task → Nat) (r : Nat) :
    ∀ ts : List Task,
      (stableSortBy (fun a b => decide (k a < k b)) ts).filter (fun t => k t == r)
        = ts.filter (fun t => k t == r) := by
  intro ts
  induction ts with
  | nil => rfl
  | cons x xs ih =>
    show (insertSorted _ x (stableSortBy _ xs)).filter _ = _
    rw [filter_insertSorted]
    by_cases hxr : (k x == r) = true
    · rw [if_pos hxr, ih, filter_cons_pos (fun t => k t == r) x xs hxr]
    · rw [if_neg hxr, ih, filter_cons_neg (fun t => k t == r) x xs hxr]

/-! ### Claim C4 -/

/-- C4 fails on the code: Python's `list.sort` is ascending in the key,
so sorting `[Critical, Low]` by priority yields `[Low, Critical]` —
increasing rank, not the claimed non-increasing Critical-first order. -/
theorem C4_counterexample :
    (sort_tasks SortCriteria.byPriority (initState [taskCrit, taskLow])).tasks
      = [taskLow, taskCrit] ∧
    ¬ ((sort_tasks SortCriteria.byPriority (initState [taskCrit, taskLow])).tasks.Pairwise
        (fun a b => priorityRank b.priority ≤ priorityRank a.priority)) := by
  constructor <;> decide

/-- C4 (amended): sorting by priority is the stable ascending sort by
priority rank: the result is non-decreasing in rank (Low, Medium, High,
Critical order), tasks of equal rank keep their original relative order
(the per-rank sublists are untouched), and an unknown priority value gets
rank 0, below every known value, so it sorts before them all. -/
theorem C4_priority_sort (s : AppState) :
    ((sort_tasks SortCriteria.byPriority s).tasks.Pairwise
      (fun a b => priorityRank a.priority ≤ priorityRank b.priority)) ∧
    (∀ r : Nat, (sort_tasks SortCriteria.byPriority s).tasks.filter
        (fun t => priorityRank t.priority == r)
      = s.tasks.filter (fun t => priorityRank t.priority == r)) ∧
    (∀ p : String, p ∉ (["Low", "Medium", "High", "Critical"] : List String) →
      priorityRank p = 0) ∧
    (∀ p : String, p ∈ (["Low", "Medium", "High", "Critical"] : List String) →
      1 ≤ priorityRank p) := by
  refine ⟨stableSortBy_pairwise (fun t => priorityRank t.priority) s.tasks,
    fun r => stableSortBy_filter (fun t => priorityRank t.priority) r s.tasks,
    ?_, ?_⟩
  · intro p hp
    simp only [List.mem_cons, List.not_mem_nil, or_false, not_or] at hp
    obtain ⟨h1, h2, h3, h4⟩ := hp
    unfold priorityRank
    rw [if_neg h4, if_neg h3, if_neg h2, if_neg h1]
  · intro p hp
    simp only [List.mem_cons, List.not_mem_nil, or_false] at hp
    rcases hp with rfl | rfl | rfl | rfl <;> decide

/-- Witness for `C4_priority_sort` on a concrete mixed-priority list. -/
theorem C4_priority_sort_witness :
    (sort_tasks SortCriteria.byPriority (initState [taskCrit, taskLow])).tasks.filter
        (fun t => priorityRank t.priority == 4)
      = (initState [taskCrit, taskLow]).tasks.filter
          (fun t => priorityRank t.priority == 4) ∧
    priorityRank "Unknown" = 0 :=
  ⟨(C4_priority_sort (initState [taskCrit, taskLow])).2.1 4,
   (C4_priority_sort (initState [taskCrit, taskLow])).2.2.1 "Unknown" (by decide)⟩

/-! ### Claim C7 -/

/-- C7 fails on the code: the no-filter sentinel is the literal
`"All Epics"` (line 757), so the filter value `"All"` is treated as an
ordinary case-insensitive substring filter and drops a task whose epic
number is `"E1"`. -/
theorem C7_counterexample :
    visibleTasks "All" none none [taskE1] = [] ∧
    visibleTasks "All" none none [taskE1] ≠ [taskE1] := by
  constructor <;> decide

/-- C7 (amended): the no-filter sentinel is `"All Epics"`: with an empty
epic filter value or the sentinel `"All Epics"` and no date bounds, the
visibility computation returns all tasks unchanged, in their original
store order. -/
theorem C7_no_filter_identity (ts : List Task) :
    visibleTasks "" none none ts = ts ∧
    visibleTasks "All Epics" none none ts = ts := by
  constructor <;> simp [visibleTasks]

end Gantt
